import Mathlib

/-!
Verification of the kasper topic processor core (`topic_processor.go` and the
serdes file) against its specification.  The coordinator loop, its helper
`processConsumerMessage`, the producer-ack router `onProducerAck`, the
shutdown path and the constructor `NewTopicProcessor` are shallowly embedded
as executable Lean functions.  Channel interactions are driven by an explicit
schedule of events (`Ev`); every observable call the loop makes is recorded in
a trace of `Action`s.  Go panics (nil map entries, failed type assertions) are
modelled by the `panicked` outcome, and a schedule that does not correspond to
any real execution (or that ends too early) yields `blocked`.
-/

namespace Kasper

/-- A Go `interface\x7b\x7d` value, opaque to the core. -/
inductive GoValue where
  | mk (tag : String)
deriving DecidableEq, Repr

/-- Serde describes a serializer/deserializer interface (from the serdes source file). -/
structure Serde where
  serialize : GoValue → List Nat
  deserialize : List Nat → GoValue

/-- TopicSerde describes a serdes interface for keys and values of a Kafka topic
(from the serdes source file). -/
structure TopicSerde where
  keySerde : Serde
  valueSerde : Serde

/-- A deserialized record read from an input topic (spec §3); its `partition`
field is a Go `int`, read by `onProducerAck` to route acks. -/
structure IncomingMessage where
  topic : String
  partition : Int
  offset : Int
  key : GoValue
  value : GoValue
  timestamp : Int
deriving DecidableEq, Repr

/-- The Go `Metadata interface\x7b\x7d` field of a producer message: either a
back-reference to the originating `IncomingMessage` or some other value, on
which the type assertion in `onProducerAck` fails. -/
inductive ProducerMetadata where
  | incoming (m : IncomingMessage)
  | other
deriving DecidableEq, Repr

/-- A record handed to the async producer (sarama `ProducerMessage`):
`partition` is an `int32`. -/
structure ProducerMessage where
  topic : String
  partition : Int
  key : List Nat
  value : List Nat
  metadata : ProducerMetadata
deriving DecidableEq, Repr

/-- A record delivered by the consumer (sarama `ConsumerMessage`):
`partition` is an `int32`. -/
structure ConsumerMessage where
  topic : String
  partition : Int
  offset : Int
  key : List Nat
  value : List Nat
deriving DecidableEq, Repr

/-- A per-message send failure delivered on the producer error stream
(sarama `ProducerError`). -/
structure ProducerError where
  msg : ProducerMessage
  err : String
deriving DecidableEq, Repr

/-- Go conversion `int32(n)`: two's-complement truncation to 32 bits. -/
def int32cast (n : Int) : Int := (n + 2 ^ 31) % 2 ^ 32 - 2 ^ 31

/-- Modelled from the spec: the partition processor implementation is not under
src/ (only its call sites in the topic processor are).  Its operations are
abstracted as a record of state transformers over an abstract per-partition
state `σ`, exactly the interface `topic_processor.go` invokes. -/
structure PartitionProcessorOps (σ : Type) where
  isReadyForMessage : σ → ConsumerMessage → Bool
  process : σ → ConsumerMessage → List ProducerMessage × Bool × σ
  onProcessCompleted : σ → σ
  isReadyToCommit : σ → Bool
  commit : σ → σ
  onProducerAck : σ → ProducerMessage → σ
  onMarkOffsetsTick : σ → σ
  onShutdown : σ → σ

/-- The mutable state of the topic processor visible to the coordinator loop:
the `map[int32]*partitionProcessor` field, as an association list from
partition to per-partition state. -/
structure TPState (σ : Type) where
  partitionProcessors : List (Int × σ)
deriving DecidableEq, Repr

/-- Go map read `m[k]`: `none` models the nil pointer returned for a missing key. -/
def lookupPP {σ : Type} : List (Int × σ) → Int → Option σ
  | [], _ => none
  | (k, v) :: rest, p => if k = p then some v else lookupPP rest p

/-- Mutation of the partition processor a map entry points to: updates the
entry when the key is present and is a no-op otherwise (mutation through a nil
pointer is already modelled as a panic at the call site). -/
def updatePP {σ : Type} : List (Int × σ) → Int → σ → List (Int × σ)
  | [], _, _ => []
  | (k, v) :: rest, p, w => if k = p then (k, w) :: rest else (k, v) :: updatePP rest p w

/-- One event offered to the coordinator by its environment: a merged consumer
delivery, a producer success (with `none` for a closed channel, i.e.
`more = false`), a commit-timer tick, readiness of the producer input channel
for one send, or the shutdown signal. -/
inductive Ev where
  | consumer (m : ConsumerMessage)
  | success (msg : Option ProducerMessage)
  | tick
  | inputReady
  | shutdownSignal
deriving DecidableEq, Repr

/-- One observable call made by the coordinator, recorded in execution traces. -/
inductive Action where
  | ackRouted (msg : Option ProducerMessage)
  | procCalled (partition : Int) (offset : Int)
  | submitted (msg : ProducerMessage)
  | completedCalled
  | hookCalled
  | commitCalled (partition : Int)
  | tickHandled
  | ppTicked (partition : Int)
  | syncChanClosed
  | tickerStopped
  | ppShutdownCalled (partition : Int)
  | producerClosed
  | clientClosed
deriving DecidableEq, Repr

/-- Outcome of running embedded code: a value, a Go panic, or a stuck run
(the schedule ended, or offered an event no enabled select branch accepts). -/
inductive ExecResult (α : Type) where
  | ok (val : α)
  | panicked
  | blocked
deriving DecidableEq, Repr

/-- `TopicProcessor.onProducerAck` from `topic_processor.go`: returns at once
when `more` is false; otherwise reads the `Metadata` back-reference (a failing
type assertion panics), looks up the partition processor of the originating
message's partition (a nil entry panics inside the method call) and forwards
the ack to it. -/
def onProducerAck {σ : Type} (ops : PartitionProcessorOps σ) (tps : TPState σ)
    (producerMessage : Option ProducerMessage) (more : Bool) : ExecResult (TPState σ) :=
  if !more then .ok tps
  else
    match producerMessage with
    | none => .panicked
    | some pm =>
      match pm.metadata with
      | .other => .panicked
      | .incoming im =>
        match lookupPP tps.partitionProcessors (int32cast im.partition) with
        | none => .panicked
        | some pp =>
          .ok ⟨updatePP tps.partitionProcessors (int32cast im.partition) (ops.onProducerAck pp pm)⟩

/-- A receive `msg, more := <-tp.producer.Successes()` followed by
`tp.onProducerAck(msg, more)`: a closed channel yields `(nil, false)`. -/
def serviceAck {σ : Type} (ops : PartitionProcessorOps σ) (tps : TPState σ)
    (o : Option ProducerMessage) : ExecResult (TPState σ) :=
  onProducerAck ops tps o o.isSome

/-- The inner `for len(producerMessages) > 0` loop of `processConsumerMessage`:
a select between sending the head message to `tp.producer.Input()` and
receiving a producer success.  Each loop iteration consumes one schedule
event; an `inputReady` event resolves the select to the send branch, a
`success` event to the ack branch (which leaves the message list unchanged). -/
def submitLoop {σ : Type} (ops : PartitionProcessorOps σ) :
    List ProducerMessage → TPState σ → List Ev → ExecResult (TPState σ × List Ev) × List Action
  | [], tps, sched => (.ok (tps, sched), [])
  | pm :: restMsgs, tps, sched =>
    match sched with
    | [] => (.blocked, [])
    | ev :: rest =>
      match ev with
      | .inputReady =>
        let rc := submitLoop ops restMsgs tps rest
        (rc.1, .submitted pm :: rc.2)
      | .success o =>
        match serviceAck ops tps o with
        | .ok tps₁ =>
          let rc := submitLoop ops (pm :: restMsgs) tps₁ rest
          (rc.1, .ackRouted o :: rc.2)
        | _ => (.panicked, [.ackRouted o])
      | _ => (.blocked, [])

/-- The `if mustCommit` loop of `processConsumerMessage`: re-test
`pp.isReadyToCommit()` (through the pointer, i.e. re-reading the map entry);
when ready, call the user's `MarkOffsetsHook` and then `pp.commit()` and
break; otherwise block on one producer success and route it.  `fuel` bounds
the number of loop iterations; each non-final iteration consumes one schedule
event, so any fuel beyond the schedule length changes nothing. -/
def commitWait {σ : Type} (ops : PartitionProcessorOps σ) (partition : Int) :
    Nat → TPState σ → List Ev → ExecResult (TPState σ × List Ev) × List Action
  | 0, _, _ => (.blocked, [])
  | fuel + 1, tps, sched =>
    match lookupPP tps.partitionProcessors partition with
    | none => (.panicked, [])
    | some pp =>
      if ops.isReadyToCommit pp then
        (.ok (⟨updatePP tps.partitionProcessors partition (ops.commit pp)⟩, sched),
          [.hookCalled, .commitCalled partition])
      else
        match sched with
        | [] => (.blocked, [])
        | .success o :: rest =>
          match serviceAck ops tps o with
          | .ok tps₁ =>
            let rc := commitWait ops partition fuel tps₁ rest
            (rc.1, .ackRouted o :: rc.2)
          | _ => (.panicked, [.ackRouted o])
        | _ :: _ => (.blocked, [])

/-- The Go `markOffsetsTickerChan` value that `runLoop` passes into
`processConsumerMessage` (a `<-chan time.Time`, modelled by its pending
tick times). -/
def TimeTickChan := List Int

set_option linter.unusedVariables false in
/-- `TopicProcessor.processConsumerMessage` from `topic_processor.go`.  Looks
up the partition processor of the message's partition (a missing entry is a
nil pointer whose first method call panics); waits for
`pp.isReadyForMessage`, servicing one producer success per wait iteration;
calls `pp.process`, submits the returned messages via `submitLoop`, calls
`pp.onProcessCompleted`, and when `mustCommit` is set runs `commitWait`.
The `tickerChan` parameter is received but never used, exactly as in the
source.  `fuel` bounds the number of iterations of the two waiting loops;
each such iteration consumes one schedule event, so any fuel beyond the
schedule length changes nothing. -/
def processConsumerMessage {σ : Type} (ops : PartitionProcessorOps σ)
    (consumerMessage : ConsumerMessage) (tickerChan : TimeTickChan) :
    Nat → TPState σ → List Ev → ExecResult (TPState σ × List Ev) × List Action
  | 0, _, _ => (.blocked, [])
  | fuel + 1, tps, sched =>
    match lookupPP tps.partitionProcessors consumerMessage.partition with
    | none => (.panicked, [])
    | some pp =>
      if ops.isReadyForMessage pp consumerMessage then
        let pr := ops.process pp consumerMessage
        let tps₁ : TPState σ := ⟨updatePP tps.partitionProcessors consumerMessage.partition pr.2.2⟩
        match submitLoop ops pr.1 tps₁ sched with
        | (.ok (tps₂, sched₂), trS) =>
          match lookupPP tps₂.partitionProcessors consumerMessage.partition with
          | none =>
            (.panicked, .procCalled consumerMessage.partition consumerMessage.offset :: trS)
          | some pp₂ =>
            let tps₃ : TPState σ :=
              ⟨updatePP tps₂.partitionProcessors consumerMessage.partition
                (ops.onProcessCompleted pp₂)⟩
            if pr.2.1 then
              let rc := commitWait ops consumerMessage.partition (fuel + 1) tps₃ sched₂
              (rc.1, .procCalled consumerMessage.partition consumerMessage.offset ::
                trS ++ .completedCalled :: rc.2)
            else
              (.ok (tps₃, sched₂),
                .procCalled consumerMessage.partition consumerMessage.offset ::
                  trS ++ [.completedCalled])
        | (.panicked, trS) =>
          (.panicked, .procCalled consumerMessage.partition consumerMessage.offset :: trS)
        | (.blocked, trS) =>
          (.blocked, .procCalled consumerMessage.partition consumerMessage.offset :: trS)
      else
        match sched with
        | [] => (.blocked, [])
        | .success o :: rest =>
          match serviceAck ops tps o with
          | .ok tps₁ =>
            let rc := processConsumerMessage ops consumerMessage tickerChan fuel tps₁ rest
            (rc.1, .ackRouted o :: rc.2)
          | _ => (.panicked, [.ackRouted o])
        | _ :: _ => (.blocked, [])

/-- Whether the process has been aborted by `log.Fatal`. -/
inductive ProcessStatus where
  | running
  | aborted
deriving DecidableEq, Repr

set_option linter.unusedVariables false in
/-- `TopicProcessor.onProducerError`: `log.Fatal(error)` — aborts the process
unconditionally (the source carries a FIXME about retry/backoff). -/
def onProducerError (e : ProducerError) : ProcessStatus := .aborted

/-- The dedicated error-drainer task launched by `runLoop`:
`for err := range tp.producer.Errors() \x7b tp.onProducerError(err) \x7d`.
Its input is the list of errors delivered before the error channel closes;
`log.Fatal` never returns, so the first error ends the process. -/
def producerErrorDrainLoop : List ProducerError → ProcessStatus
  | [] => .running
  | e :: _ => onProducerError e

/-- Iteration of `for _, pp := range tp.partitionProcessors \x7b pp.onShutdown() \x7d`
inside `onShutdown`, recording one action per partition processor. -/
def shutdownPPs {σ : Type} (ops : PartitionProcessorOps σ) :
    List (Int × σ) → List (Int × σ) × List Action
  | [] => ([], [])
  | (p, s) :: rest =>
    let rc := shutdownPPs ops rest
    ((p, ops.onShutdown s) :: rc.1, .ppShutdownCalled p :: rc.2)

/-- `TopicProcessor.onShutdown`: stop the ticker when one exists, call
`onShutdown` on every partition processor, close the producer, close the
client. -/
def onShutdown {σ : Type} (ops : PartitionProcessorOps σ) (hasTicker : Bool)
    (tps : TPState σ) : TPState σ × List Action :=
  let tickActs := if hasTicker then [Action.tickerStopped] else []
  let rc := shutdownPPs ops tps.partitionProcessors
  (⟨rc.1⟩, tickActs ++ rc.2 ++ [.producerClosed, .clientClosed])

/-- Iteration of `for _, pp := range tp.partitionProcessors \x7b pp.onMarkOffsetsTick() \x7d`
inside `onMarkOffsetsTick`. -/
def tickPPs {σ : Type} (ops : PartitionProcessorOps σ) :
    List (Int × σ) → List (Int × σ) × List Action
  | [] => ([], [])
  | (p, s) :: rest =>
    let rc := tickPPs ops rest
    ((p, ops.onMarkOffsetsTick s) :: rc.1, .ppTicked p :: rc.2)

/-- `TopicProcessor.onMarkOffsetsTick`: call the user's `MarkOffsetsHook`,
then `onMarkOffsetsTick` on every partition processor. -/
def onMarkOffsetsTick {σ : Type} (ops : PartitionProcessorOps σ) (tps : TPState σ) :
    TPState σ × List Action :=
  let rc := tickPPs ops tps.partitionProcessors
  (⟨rc.1⟩, .hookCalled :: rc.2)

/-- `TopicProcessor.runLoop` from `topic_processor.go`: the four-way select
over merged consumer messages, producer successes, the commit ticker (a tick
can only arrive when `markOffsetsAutomatically`, i.e. `auto`, is set — the
channel is otherwise never written) and the shutdown signal.  On shutdown it
closes the fan-in synchroniser channel, runs `onShutdown` (with a ticker
exactly when `auto` is set) and returns.  `fuel` bounds the number of loop
iterations; each iteration consumes at least one schedule event, so
`sched.length + 1` fuel is always enough. -/
def runLoop {σ : Type} (ops : PartitionProcessorOps σ) (auto : Bool)
    (tickerChan : TimeTickChan) :
    Nat → TPState σ → List Ev → ExecResult (TPState σ) × List Action
  | 0, _, _ => (.blocked, [])
  | _ + 1, _, [] => (.blocked, [])
  | fuel + 1, tps, ev :: rest =>
    match ev with
    | .consumer m =>
      match processConsumerMessage ops m tickerChan (fuel + 1) tps rest with
      | (.ok (tps₁, sched₁), tr) =>
        let rc := runLoop ops auto tickerChan fuel tps₁ sched₁
        (rc.1, tr ++ rc.2)
      | (.panicked, tr) => (.panicked, tr)
      | (.blocked, tr) => (.blocked, tr)
    | .success o =>
      match serviceAck ops tps o with
      | .ok tps₁ =>
        let rc := runLoop ops auto tickerChan fuel tps₁ rest
        (rc.1, .ackRouted o :: rc.2)
      | _ => (.panicked, [.ackRouted o])
    | .tick =>
      if auto then
        let tk := onMarkOffsetsTick ops tps
        let rc := runLoop ops auto tickerChan fuel tk.1 rest
        (rc.1, .tickHandled :: tk.2 ++ rc.2)
      else (.blocked, [])
    | .inputReady => (.blocked, [])
    | .shutdownSignal =>
      let sd := onShutdown ops auto tps
      (.ok sd.1, .syncChanClosed :: sd.2)

/-- The two statements of `TopicProcessor.Shutdown`. -/
inductive ShutdownStep where
  | closeShutdownChannel
  | awaitWaitGroup
deriving DecidableEq, Repr

/-- `TopicProcessor.Shutdown`: `close(tp.shutdown)` then `tp.waitGroup.Wait()`,
in that order. -/
def Shutdown : List ShutdownStep := [.closeShutdownChannel, .awaitWaitGroup]

/-- The configuration fields of `TopicProcessorConfig` that
`NewTopicProcessor` reads (the config source file is not under src/; field
names and types follow the spec's configuration table, with Go maps as
association lists). -/
structure TopicProcessorConfig where
  BrokerList : List String
  InputTopics : List String
  TopicSerdes : List (String × TopicSerde)
  ContainerCount : Int
  PartitionToContainerID : List (Int × Int)

/-- Generic Go map lookup over an association list. -/
def assocLookup {κ α : Type} [DecidableEq κ] : List (κ × α) → κ → Option α
  | [], _ => none
  | (k, v) :: rest, q => if k = q then some v else assocLookup rest q

/-- Modelled from the spec: `partitionsForContainer` lives in config code not
present under src/; the spec describes a static partition→container
assignment (`PartitionToContainerID`), so the partitions for a container are
exactly those the map assigns to it. -/
def TopicProcessorConfig.partitionsForContainer (config : TopicProcessorConfig)
    (containerID : Int) : List Int :=
  (config.PartitionToContainerID.filter (fun pc => pc.2 == containerID)).map (fun pc => pc.1)

/-- The fatal setup errors `NewTopicProcessor` can raise via `log.Fatal`,
in source order. -/
inductive SetupError where
  | containerIDOutOfRange
  | missingSerde (topic : String)
  | clientError
  | missingPartitionMapping (partition : Int)
  | offsetManagerError
  | producerError
deriving DecidableEq, Repr

/-- Success or failure of the external broker-dependent construction steps
(`sarama.NewClient`, `sarama.NewOffsetManagerFromClient`,
`sarama.NewAsyncProducer` inside `mustSetupProducer`). -/
structure SetupEnv where
  clientOk : Bool
  offsetManagerOk : Bool
  producerOk : Bool
deriving DecidableEq, Repr

/-- The fields of the constructed `TopicProcessor` record that the claims
refer to. -/
structure TopicProcessor (σ : Type) where
  containerID : Int
  inputTopics : List String
  partitions : List Int
  partitionProcessors : List (Int × σ)
deriving DecidableEq, Repr

/-- `NewTopicProcessor` from `topic_processor.go`: validates the container id
range, the presence of a serde for every input topic, constructs the client,
computes the assigned partitions, validates their container mapping,
constructs the offset manager and producer, and builds one partition
processor per assigned partition (keyed by `int32(partition)`).
`makeProcessor` is the user's `MessageProcessor` factory and
`newPartitionProcessor` abstracts the partition processor constructor, whose
code is not under src/. -/
def NewTopicProcessor {μ σ : Type} (config : TopicProcessorConfig)
    (makeProcessor : Unit → μ) (newPartitionProcessor : μ → Int → σ)
    (env : SetupEnv) (containerID : Int) : Except SetupError (TopicProcessor σ) :=
  if containerID < 0 || containerID ≥ config.ContainerCount then
    .error .containerIDOutOfRange
  else
    match config.InputTopics.find? (fun t => (assocLookup config.TopicSerdes t).isNone) with
    | some t => .error (.missingSerde t)
    | none =>
      if !env.clientOk then .error .clientError
      else
        let partitions := config.partitionsForContainer containerID
        match partitions.find?
            (fun p => (assocLookup config.PartitionToContainerID p).isNone) with
        | some p => .error (.missingPartitionMapping p)
        | none =>
          if !env.offsetManagerOk then .error .offsetManagerError
          else if !env.producerOk then .error .producerError
          else
            .ok
              { containerID := containerID
                inputTopics := config.InputTopics
                partitions := partitions
                partitionProcessors :=
                  partitions.map
                    (fun p => (int32cast p, newPartitionProcessor (makeProcessor ()) p)) }

/-- The trace-and-state shape of the backpressure wait at the top of
`processConsumerMessage`: zero or more iterations, each of which finds
`isReadyForMessage` false and services exactly one producer success,
terminated by a state in which `isReadyForMessage` is true. -/
inductive ReadyWait {σ : Type} (ops : PartitionProcessorOps σ) (m : ConsumerMessage) :
    TPState σ → List Action → TPState σ → Prop where
  | ready {tps : TPState σ} {pp : σ} :
      lookupPP tps.partitionProcessors m.partition = some pp →
      ops.isReadyForMessage pp m = true →
      ReadyWait ops m tps [] tps
  | wait {tps : TPState σ} {pp : σ} {o : Option ProducerMessage} {tps₁ tps₂ : TPState σ}
      {tr : List Action} :
      lookupPP tps.partitionProcessors m.partition = some pp →
      ops.isReadyForMessage pp m = false →
      serviceAck ops tps o = .ok tps₁ →
      ReadyWait ops m tps₁ tr tps₂ →
      ReadyWait ops m tps (.ackRouted o :: tr) tps₂

/-- The trace-and-state shape of the output-submission loop: the pending
message list shrinks head-first on each successful send, and servicing an
ack leaves the pending list (in particular its head) unchanged. -/
inductive SubmitPhase {σ : Type} (ops : PartitionProcessorOps σ) :
    List ProducerMessage → TPState σ → List Action → TPState σ → Prop where
  | nil {tps : TPState σ} : SubmitPhase ops [] tps [] tps
  | sub {pm : ProducerMessage} {ms : List ProducerMessage} {tps : TPState σ}
      {tr : List Action} {tps₁ : TPState σ} :
      SubmitPhase ops ms tps tr tps₁ →
      SubmitPhase ops (pm :: ms) tps (.submitted pm :: tr) tps₁
  | ack {pm : ProducerMessage} {ms : List ProducerMessage} {tps : TPState σ}
      {o : Option ProducerMessage} {tps₁ : TPState σ} {tr : List Action} {tps₂ : TPState σ} :
      serviceAck ops tps o = .ok tps₁ →
      SubmitPhase ops (pm :: ms) tps₁ tr tps₂ →
      SubmitPhase ops (pm :: ms) tps (.ackRouted o :: tr) tps₂

/-- The trace-and-state shape of the `mustCommit` wait: zero or more
iterations, each of which finds `isReadyToCommit` false and services exactly
one producer success; at a state whose partition processor is ready to
commit, the hook is called and then, immediately after, `commit`. -/
inductive CommitPhase {σ : Type} (ops : PartitionProcessorOps σ) (partition : Int) :
    TPState σ → List Action → TPState σ → Prop where
  | ready {tps : TPState σ} {pp : σ} :
      lookupPP tps.partitionProcessors partition = some pp →
      ops.isReadyToCommit pp = true →
      CommitPhase ops partition tps [.hookCalled, .commitCalled partition]
        ⟨updatePP tps.partitionProcessors partition (ops.commit pp)⟩
  | wait {tps : TPState σ} {pp : σ} {o : Option ProducerMessage} {tps₁ : TPState σ}
      {tr : List Action} {tps₂ : TPState σ} :
      lookupPP tps.partitionProcessors partition = some pp →
      ops.isReadyToCommit pp = false →
      serviceAck ops tps o = .ok tps₁ →
      CommitPhase ops partition tps₁ tr tps₂ →
      CommitPhase ops partition tps (.ackRouted o :: tr) tps₂

/-- The producer messages a trace submits to the producer input stream,
in order. -/
def submittedOf (tr : List Action) : List ProducerMessage :=
  tr.filterMap (fun a => match a with | .submitted pm => some pm | _ => none)

/-- A small concrete partition processor over `Nat` states (counting in-flight
groups) used to exercise the embedding on closed runs. -/
def demoOps : PartitionProcessorOps Nat where
  isReadyForMessage := fun s _ => s == 0
  process := fun s m =>
    ([{ topic := "out", partition := 0, key := [], value := [],
        metadata := .incoming ⟨m.topic, m.partition, m.offset, .mk "k", .mk "v", 0⟩ }],
      true, s)
  onProcessCompleted := fun s => s + 1
  isReadyToCommit := fun s => s == 0
  commit := fun s => s
  onProducerAck := fun s _ => s - 1
  onMarkOffsetsTick := fun s => s
  onShutdown := fun s => s

/-- A concrete consumer message on partition 0 at offset 7. -/
def demoM : ConsumerMessage := ⟨"in", 0, 7, [], []⟩

/-- The incoming-message back-reference corresponding to `demoM`. -/
def demoIm : IncomingMessage := ⟨"in", 0, 7, .mk "k", .mk "v", 0⟩

/-- The producer message `demoOps.process` emits for `demoM`, whose success
ack routes back to partition 0. -/
def demoAck : ProducerMessage :=
  { topic := "out", partition := 0, key := [], value := [], metadata := .incoming demoIm }

/-- A producer message whose metadata is not an `IncomingMessage`. -/
def demoBadAck : ProducerMessage :=
  { topic := "out", partition := 0, key := [], value := [], metadata := .other }

/-- A schedule under which `demoM` is processed to completion: one ack to
clear backpressure, one input-ready slot for the single output, one ack to
reach commit readiness. -/
def demoSched : List Ev := [.success (some demoAck), .inputReady, .success (some demoAck)]

/-- A serde whose content is irrelevant to the topic processor. -/
def demoSerde : Serde := ⟨fun _ => [], fun _ => .mk ""⟩

/-- A key/value serde pair for the demo configuration. -/
def demoTopicSerde : TopicSerde := ⟨demoSerde, demoSerde⟩

/-- A concrete configuration: one input topic with a serde, two containers,
partitions 0 and 2 assigned to container 0 and partition 1 to container 1. -/
def demoConfig : TopicProcessorConfig :=
  { BrokerList := ["localhost:9092"]
    InputTopics := ["in"]
    TopicSerdes := [("in", demoTopicSerde)]
    ContainerCount := 2
    PartitionToContainerID := [(0, 0), (1, 1), (2, 0)] }

/-- A setup environment in which all broker-dependent steps succeed. -/
def demoEnv : SetupEnv := ⟨true, true, true⟩

theorem lookupPP_updatePP_self {σ : Type} (l : List (Int × σ)) (p : Int) (w v : σ)
    (h : lookupPP l p = some v) : lookupPP (updatePP l p w) p = some w := by
  induction l with
  | nil => simp [lookupPP] at h
  | cons kv rest ih =>
    obtain ⟨k, u⟩ := kv
    by_cases hk : k = p
    · subst hk
      simp [lookupPP, updatePP]
    · simp [lookupPP, updatePP, hk] at h ⊢
      exact ih h

theorem lookupPP_updatePP_ne {σ : Type} (l : List (Int × σ)) (p q : Int) (w : σ)
    (h : q ≠ p) : lookupPP (updatePP l p w) q = lookupPP l q := by
  induction l with
  | nil => simp [updatePP]
  | cons kv rest ih =>
    obtain ⟨k, u⟩ := kv
    by_cases hk : k = p
    · subst hk
      simp [updatePP, lookupPP, Ne.symm h]
    · by_cases hq : k = q
      · subst hq
        simp [updatePP, lookupPP, hk]
      · simp [updatePP, lookupPP, hk, hq, ih]

theorem updatePP_of_lookup_none {σ : Type} (l : List (Int × σ)) (p : Int) (w : σ)
    (h : lookupPP l p = none) : updatePP l p w = l := by
  induction l with
  | nil => simp [updatePP]
  | cons kv rest ih =>
    obtain ⟨k, u⟩ := kv
    by_cases hk : k = p
    · subst hk
      simp [lookupPP] at h
    · simp [lookupPP, hk] at h
      simp [updatePP, hk, ih h]

theorem lookupPP_updatePP_isSome {σ : Type} (l : List (Int × σ)) (p q : Int) (w : σ) :
    (lookupPP (updatePP l p w) q).isSome = (lookupPP l q).isSome := by
  by_cases hq : q = p
  · subst hq
    cases h : lookupPP l q with
    | none => rw [updatePP_of_lookup_none l q w h, h]
    | some v => simp [lookupPP_updatePP_self l q w v h, h]
  · rw [lookupPP_updatePP_ne l p q w hq]

theorem serviceAck_isSome {σ : Type} (ops : PartitionProcessorOps σ)
    (tps tps₁ : TPState σ) (o : Option ProducerMessage)
    (h : serviceAck ops tps o = .ok tps₁) (q : Int) :
    (lookupPP tps₁.partitionProcessors q).isSome
      = (lookupPP tps.partitionProcessors q).isSome := by
  cases o with
  | none =>
    simp [serviceAck, onProducerAck] at h
    subst h
    rfl
  | some pm =>
    cases hm : pm.metadata with
    | other => simp [serviceAck, onProducerAck, hm] at h
    | incoming im =>
      cases hl : lookupPP tps.partitionProcessors (int32cast im.partition) with
      | none => simp [serviceAck, onProducerAck, hm, hl] at h
      | some pp =>
        simp [serviceAck, onProducerAck, hm, hl] at h
        subst h
        exact lookupPP_updatePP_isSome _ _ _ _

theorem ReadyWait_mem {σ : Type} {ops : PartitionProcessorOps σ} {m : ConsumerMessage}
    {tps tps' : TPState σ} {tr : List Action} (h : ReadyWait ops m tps tr tps') :
    ∀ a ∈ tr, ∃ o, a = Action.ackRouted o := by
  induction h with
  | ready _ _ => intro a ha; cases ha
  | wait _ _ _ _ ih =>
    intro a ha
    cases ha with
    | head => exact ⟨_, rfl⟩
    | tail _ hmem => exact ih a hmem

theorem SubmitPhase_mem {σ : Type} {ops : PartitionProcessorOps σ}
    {ms : List ProducerMessage} {tps tps' : TPState σ} {tr : List Action}
    (h : SubmitPhase ops ms tps tr tps') :
    ∀ a ∈ tr, (∃ o, a = Action.ackRouted o) ∨ ∃ pm, a = Action.submitted pm := by
  induction h with
  | nil => intro a ha; cases ha
  | sub _ ih =>
    intro a ha
    cases ha with
    | head => exact Or.inr ⟨_, rfl⟩
    | tail _ hmem => exact ih a hmem
  | ack _ _ ih =>
    intro a ha
    cases ha with
    | head => exact Or.inl ⟨_, rfl⟩
    | tail _ hmem => exact ih a hmem

theorem SubmitPhase_submittedOf {σ : Type} {ops : PartitionProcessorOps σ}
    {ms : List ProducerMessage} {tps tps' : TPState σ} {tr : List Action}
    (h : SubmitPhase ops ms tps tr tps') : submittedOf tr = ms := by
  induction h with
  | nil => rfl
  | sub _ ih => simp [submittedOf, List.filterMap_cons] at ih ⊢; exact ih
  | ack _ _ ih => simp [submittedOf, List.filterMap_cons] at ih ⊢; exact ih

theorem CommitPhase_shape {σ : Type} {ops : PartitionProcessorOps σ} {partition : Int}
    {tps tps' : TPState σ} {tr : List Action} (h : CommitPhase ops partition tps tr tps') :
    ∃ (acks : List Action) (tpsC : TPState σ) (ppC : σ),
      tr = acks ++ [Action.hookCalled, Action.commitCalled partition] ∧
      (∀ a ∈ acks, ∃ o, a = Action.ackRouted o) ∧
      lookupPP tpsC.partitionProcessors partition = some ppC ∧
      ops.isReadyToCommit ppC = true ∧
      tps' = ⟨updatePP tpsC.partitionProcessors partition (ops.commit ppC)⟩ := by
  induction h with
  | @ready tps₀ pp₀ hl hr =>
    exact ⟨[], tps₀, pp₀, rfl, fun a ha => absurd ha (List.not_mem_nil a), hl, hr, rfl⟩
  | @wait tps₀ pp₀ o tps₁ tr₀ tps₂ _ _ _ _ ih =>
    obtain ⟨acks, tpsC, ppC, htr, hacks, hl, hr, hfin⟩ := ih
    refine ⟨Action.ackRouted o :: acks, tpsC, ppC, by simp [htr], ?_, hl, hr, hfin⟩
    intro a ha
    cases ha with
    | head => exact ⟨o, rfl⟩
    | tail _ hmem => exact hacks a hmem

theorem submitLoop_ok {σ : Type} (ops : PartitionProcessorOps σ) :
    ∀ (sched : List Ev) (msgs : List ProducerMessage) (tps tps' : TPState σ)
      (sched' : List Ev) (tr : List Action),
      submitLoop ops msgs tps sched = (.ok (tps', sched'), tr) →
      SubmitPhase ops msgs tps tr tps' ∧
      ∃ consumed, sched = consumed ++ sched' ∧
        ∀ e ∈ consumed, (∃ o, e = Ev.success o) ∨ e = Ev.inputReady := by
  intro sched
  induction sched with
  | nil =>
    intro msgs tps tps' sched' tr h
    cases msgs with
    | nil =>
      simp [submitLoop] at h
      obtain ⟨⟨h1, h2⟩, h3⟩ := h
      subst h1; subst h2; subst h3
      exact ⟨SubmitPhase.nil, [], rfl, by intro e he; cases he⟩
    | cons pm ms => simp [submitLoop] at h
  | cons ev rest ih =>
    intro msgs tps tps' sched' tr h
    cases msgs with
    | nil =>
      simp [submitLoop] at h
      obtain ⟨⟨h1, h2⟩, h3⟩ := h
      subst h1; subst h2; subst h3
      exact ⟨SubmitPhase.nil, [], rfl, by intro e he; cases he⟩
    | cons pm ms =>
      cases ev with
      | consumer m => simp [submitLoop] at h
      | tick => simp [submitLoop] at h
      | shutdownSignal => simp [submitLoop] at h
      | inputReady =>
        rcases hrec : submitLoop ops ms tps rest with ⟨r, tr0⟩
        simp [submitLoop, hrec] at h
        cases r with
        | ok val =>
          obtain ⟨tps₀, sched₀⟩ := val
          simp at h
          obtain ⟨⟨h1, h2⟩, h3⟩ := h
          subst h1; subst h2; subst h3
          obtain ⟨hph, consumed, hc, hall⟩ := ih ms tps tps₀ sched₀ tr0 hrec
          refine ⟨SubmitPhase.sub hph, Ev.inputReady :: consumed, by simp [hc], ?_⟩
          intro e he
          cases he with
          | head => exact Or.inr rfl
          | tail _ hmem => exact hall e hmem
        | panicked => simp at h
        | blocked => simp at h
      | success o =>
        cases hsa : serviceAck ops tps o with
        | ok tps₁ =>
          rcases hrec : submitLoop ops (pm :: ms) tps₁ rest with ⟨r, tr0⟩
          simp [submitLoop, hsa, hrec] at h
          cases r with
          | ok val =>
            obtain ⟨tps₀, sched₀⟩ := val
            simp at h
            obtain ⟨⟨h1, h2⟩, h3⟩ := h
            subst h1; subst h2; subst h3
            obtain ⟨hph, consumed, hc, hall⟩ := ih (pm :: ms) tps₁ tps₀ sched₀ tr0 hrec
            refine ⟨SubmitPhase.ack hsa hph, Ev.success o :: consumed, by simp [hc], ?_⟩
            intro e he
            cases he with
            | head => exact Or.inl ⟨o, rfl⟩
            | tail _ hmem => exact hall e hmem
          | panicked => simp at h
          | blocked => simp at h
        | panicked => simp [submitLoop, hsa] at h
        | blocked => simp [submitLoop, hsa] at h

theorem commitWait_ok {σ : Type} (ops : PartitionProcessorOps σ) (partition : Int) :
    ∀ (fuel : Nat) (sched : List Ev) (tps tps' : TPState σ) (sched' : List Ev)
      (tr : List Action),
      commitWait ops partition fuel tps sched = (.ok (tps', sched'), tr) →
      CommitPhase ops partition tps tr tps' ∧
      ∃ consumed, sched = consumed ++ sched' ∧
        ∀ e ∈ consumed, ∃ o, e = Ev.success o := by
  intro fuel
  induction fuel with
  | zero => intro sched tps tps' sched' tr h; simp [commitWait] at h
  | succ fuel ih =>
    intro sched tps tps' sched' tr h
    cases hl : lookupPP tps.partitionProcessors partition with
    | none => simp [commitWait, hl] at h
    | some pp =>
      cases hr : ops.isReadyToCommit pp with
      | true =>
        simp [commitWait, hl, hr] at h
        obtain ⟨⟨h1, h2⟩, h3⟩ := h
        subst h1; subst h2; subst h3
        exact ⟨CommitPhase.ready hl hr, [], rfl, by intro e he; cases he⟩
      | false =>
        cases sched with
        | nil => simp [commitWait, hl, hr] at h
        | cons ev rest =>
          cases ev with
          | consumer m => simp [commitWait, hl, hr] at h
          | tick => simp [commitWait, hl, hr] at h
          | shutdownSignal => simp [commitWait, hl, hr] at h
          | inputReady => simp [commitWait, hl, hr] at h
          | success o =>
            cases hsa : serviceAck ops tps o with
            | ok tps₁ =>
              rcases hrec : commitWait ops partition fuel tps₁ rest with ⟨r, tr0⟩
              simp [commitWait, hl, hr, hsa, hrec] at h
              cases r with
              | ok val =>
                obtain ⟨tps₀, sched₀⟩ := val
                simp at h
                obtain ⟨⟨h1, h2⟩, h3⟩ := h
                subst h1; subst h2; subst h3
                obtain ⟨hph, consumed, hc, hall⟩ := ih rest tps₁ tps₀ sched₀ tr0 hrec
                refine ⟨CommitPhase.wait hl hr hsa hph, Ev.success o :: consumed,
                  by simp [hc], ?_⟩
                intro e he
                cases he with
                | head => exact ⟨o, rfl⟩
                | tail _ hmem => exact hall e hmem
              | panicked => simp at h
              | blocked => simp at h
            | panicked => simp [commitWait, hl, hr, hsa] at h
            | blocked => simp [commitWait, hl, hr, hsa] at h

theorem processConsumerMessage_ok {σ : Type} (ops : PartitionProcessorOps σ)
    (m : ConsumerMessage) (tickerChan : TimeTickChan) :
    ∀ (fuel : Nat) (sched : List Ev) (tps tpsF : TPState σ) (schedF : List Ev)
      (tr : List Action),
      processConsumerMessage ops m tickerChan fuel tps sched = (.ok (tpsF, schedF), tr) →
      ∃ (trW : List Action) (tpsW : TPState σ) (pp : σ) (trS : List Action)
        (tps₂ : TPState σ) (pp₂ : σ) (trC : List Action),
        ReadyWait ops m tps trW tpsW ∧
        lookupPP tpsW.partitionProcessors m.partition = some pp ∧
        ops.isReadyForMessage pp m = true ∧
        SubmitPhase ops (ops.process pp m).1
          ⟨updatePP tpsW.partitionProcessors m.partition (ops.process pp m).2.2⟩ trS tps₂ ∧
        lookupPP tps₂.partitionProcessors m.partition = some pp₂ ∧
        tr = trW ++ .procCalled m.partition m.offset :: trS ++ .completedCalled :: trC ∧
        ((ops.process pp m).2.1 = true →
          CommitPhase ops m.partition
            ⟨updatePP tps₂.partitionProcessors m.partition (ops.onProcessCompleted pp₂)⟩
            trC tpsF) ∧
        ((ops.process pp m).2.1 = false →
          trC = [] ∧
          tpsF = ⟨updatePP tps₂.partitionProcessors m.partition (ops.onProcessCompleted pp₂)⟩) ∧
        ∃ consumed, sched = consumed ++ schedF ∧
          ∀ e ∈ consumed, (∃ o, e = Ev.success o) ∨ e = Ev.inputReady := by
  intro fuel
  induction fuel with
  | zero => intro sched tps tpsF schedF tr h; simp [processConsumerMessage] at h
  | succ fuel ih =>
    intro sched tps tpsF schedF tr h
    cases hl : lookupPP tps.partitionProcessors m.partition with
    | none => simp [processConsumerMessage, hl] at h
    | some pp =>
      cases hready : ops.isReadyForMessage pp m with
      | true =>
        rcases hsub : submitLoop ops (ops.process pp m).1
            ⟨updatePP tps.partitionProcessors m.partition (ops.process pp m).2.2⟩ sched
          with ⟨rs, trS⟩
        cases rs with
        | ok val =>
          obtain ⟨tps₂, sched₂⟩ := val
          cases hl2 : lookupPP tps₂.partitionProcessors m.partition with
          | none => simp [processConsumerMessage, hl, hready, hsub, hl2] at h
          | some pp₂ =>
            cases hmc : (ops.process pp m).2.1 with
            | true =>
              rcases hcw : commitWait ops m.partition (fuel + 1)
                  ⟨updatePP tps₂.partitionProcessors m.partition (ops.onProcessCompleted pp₂)⟩
                  sched₂
                with ⟨rc, trC⟩
              simp [processConsumerMessage, hl, hready, hsub, hl2, hmc, hcw] at h
              cases rc with
              | ok val₂ =>
                obtain ⟨tpsC, schedC⟩ := val₂
                simp at h
                obtain ⟨⟨h1, h2⟩, h3⟩ := h
                subst h1; subst h2; subst h3
                obtain ⟨hphS, consumedS, hcS, hallS⟩ :=
                  submitLoop_ok ops sched (ops.process pp m).1 _ tps₂ sched₂ trS hsub
                obtain ⟨hphC, consumedC, hcC, hallC⟩ :=
                  commitWait_ok ops m.partition (fuel + 1) sched₂ _ tpsC schedC trC hcw
                refine ⟨[], tps, pp, trS, tps₂, pp₂, trC, ReadyWait.ready hl hready, hl,
                  hready, hphS, hl2, rfl, fun _ => hphC, fun hcon => ?_,
                  consumedS ++ consumedC, ?_, ?_⟩
                · rw [hmc] at hcon; cases hcon
                · rw [hcS, hcC, List.append_assoc]
                · intro e he
                  rcases List.mem_append.mp he with hmem | hmem
                  · exact hallS e hmem
                  · rcases hallC e hmem with ⟨o, ho⟩
                    exact Or.inl ⟨o, ho⟩
              | panicked => simp at h
              | blocked => simp at h
            | false =>
              simp [processConsumerMessage, hl, hready, hsub, hl2, hmc] at h
              obtain ⟨⟨h1, h2⟩, h3⟩ := h
              subst h1; subst h2; subst h3
              obtain ⟨hphS, consumedS, hcS, hallS⟩ :=
                submitLoop_ok ops sched (ops.process pp m).1 _ tps₂ sched₂ trS hsub
              refine ⟨[], tps, pp, trS, tps₂, pp₂, [], ReadyWait.ready hl hready, hl,
                hready, hphS, hl2, rfl, fun hcon => ?_, fun _ => ⟨rfl, rfl⟩,
                consumedS, hcS, hallS⟩
              rw [hmc] at hcon; cases hcon
        | panicked => simp [processConsumerMessage, hl, hready, hsub] at h
        | blocked => simp [processConsumerMessage, hl, hready, hsub] at h
      | false =>
        cases sched with
        | nil => simp [processConsumerMessage, hl, hready] at h
        | cons ev rest =>
          cases ev with
          | consumer m₂ => simp [processConsumerMessage, hl, hready] at h
          | tick => simp [processConsumerMessage, hl, hready] at h
          | shutdownSignal => simp [processConsumerMessage, hl, hready] at h
          | inputReady => simp [processConsumerMessage, hl, hready] at h
          | success o =>
            cases hsa : serviceAck ops tps o with
            | ok tps₁ =>
              rcases hrec : processConsumerMessage ops m tickerChan fuel tps₁ rest
                with ⟨r, tr0⟩
              simp [processConsumerMessage, hl, hready, hsa, hrec] at h
              cases r with
              | ok val =>
                obtain ⟨tps₀, sched₀⟩ := val
                simp at h
                obtain ⟨⟨h1, h2⟩, h3⟩ := h
                subst h1; subst h2; subst h3
                obtain ⟨trW, tpsW, pp₀, trS, tps₂, pp₂, trC, hrw, hlW, hready₀, hphS, hl2,
                  htr, hcT, hcF, consumed, hc, hall⟩ := ih rest tps₁ tps₀ sched₀ tr0 hrec
                refine ⟨Action.ackRouted o :: trW, tpsW, pp₀, trS, tps₂, pp₂, trC,
                  ReadyWait.wait hl hready hsa hrw, hlW, hready₀, hphS, hl2,
                  by simp [htr], hcT, hcF, Ev.success o :: consumed, by simp [hc], ?_⟩
                intro e he
                cases he with
                | head => exact Or.inl ⟨o, rfl⟩
                | tail _ hmem => exact hall e hmem
              | panicked => simp at h
              | blocked => simp at h
            | panicked => simp [processConsumerMessage, hl, hready, hsa] at h
            | blocked => simp [processConsumerMessage, hl, hready, hsa] at h

theorem submittedOf_append (a b : List Action) :
    submittedOf (a ++ b) = submittedOf a ++ submittedOf b := by
  simp [submittedOf]

theorem submittedOf_eq_nil {tr : List Action}
    (h : ∀ a ∈ tr, ∀ pm, a ≠ Action.submitted pm) : submittedOf tr = [] := by
  apply List.filterMap_eq_nil_iff.mpr
  intro a ha
  cases a <;> try rfl
  exact absurd rfl (h _ ha _)

theorem pcm_trace_actions {σ : Type} (ops : PartitionProcessorOps σ)
    (m : ConsumerMessage) (tickerChan : TimeTickChan) (fuel : Nat) (sched : List Ev)
    (tps tpsF : TPState σ) (schedF : List Ev) (tr : List Action)
    (h : processConsumerMessage ops m tickerChan fuel tps sched = (.ok (tpsF, schedF), tr)) :
    ∀ a ∈ tr, (∃ o, a = Action.ackRouted o) ∨ (∃ p off, a = Action.procCalled p off) ∨
      (∃ pm, a = Action.submitted pm) ∨ a = Action.completedCalled ∨
      a = Action.hookCalled ∨ ∃ p, a = Action.commitCalled p := by
  obtain ⟨trW, tpsW, pp, trS, tps₂, pp₂, trC, hrw, _, _, hphS, _, htr, hcT, hcF, _⟩ :=
    processConsumerMessage_ok ops m tickerChan fuel sched tps tpsF schedF tr h
  intro a ha
  rw [htr] at ha
  rcases List.mem_append.mp ha with hPre | hTail
  · rcases List.mem_append.mp hPre with hW | hMid
    · exact Or.inl (ReadyWait_mem hrw a hW)
    rcases List.mem_cons.mp hMid with hpc | hS
    · exact Or.inr (Or.inl ⟨m.partition, m.offset, hpc⟩)
    rcases SubmitPhase_mem hphS a hS with hAck | hSub
    · exact Or.inl hAck
    · exact Or.inr (Or.inr (Or.inl hSub))
  rcases List.mem_cons.mp hTail with hcc | hC
  · exact Or.inr (Or.inr (Or.inr (Or.inl hcc)))
  cases hmc : (ops.process pp m).2.1 with
  | true =>
    obtain ⟨acks, tpsC, ppC, htrC, hacks, _, _, _⟩ := CommitPhase_shape (hcT hmc)
    rw [htrC] at hC
    rcases List.mem_append.mp hC with hA | hTail
    · exact Or.inl (hacks a hA)
    rcases List.mem_cons.mp hTail with hh | hTail₂
    · exact Or.inr (Or.inr (Or.inr (Or.inr (Or.inl hh))))
    rcases List.mem_cons.mp hTail₂ with hcm | hnil
    · exact Or.inr (Or.inr (Or.inr (Or.inr (Or.inr ⟨m.partition, hcm⟩))))
    · cases hnil
  | false =>
    rw [(hcF hmc).1] at hC
    cases hC

theorem shutdownPPs_spec {σ : Type} (ops : PartitionProcessorOps σ) (l : List (Int × σ)) :
    (shutdownPPs ops l).1 = l.map (fun pr => (pr.1, ops.onShutdown pr.2)) ∧
    (shutdownPPs ops l).2 = l.map (fun pr => Action.ppShutdownCalled pr.1) := by
  induction l with
  | nil => exact ⟨rfl, rfl⟩
  | cons kv rest ih => simp [shutdownPPs, ih.1, ih.2]

theorem assocLookup_isSome_of_mem {κ α : Type} [DecidableEq κ] (l : List (κ × α))
    (k : κ) (v : α) (h : (k, v) ∈ l) : (assocLookup l k).isSome = true := by
  induction l with
  | nil => cases h
  | cons kv rest ih =>
    obtain ⟨k', v'⟩ := kv
    by_cases hk : k' = k
    · simp [assocLookup, hk]
    · rcases List.mem_cons.mp h with heq | hmem
      · exact absurd (congrArg Prod.fst heq).symm hk
      · simp [assocLookup, hk, ih hmem]

/-- C4: for every producer success ack carrying a message (`more = true`) with
an `IncomingMessage` back-reference in its metadata, `onProducerAck` forwards
the ack to the partition processor of that incoming message's partition, and
leaves every other partition processor untouched. -/
theorem onProducerAck_routes_by_backreference {σ : Type} (ops : PartitionProcessorOps σ)
    (tps : TPState σ) (pm : ProducerMessage) (im : IncomingMessage) (pp : σ)
    (hm : pm.metadata = .incoming im)
    (hl : lookupPP tps.partitionProcessors (int32cast im.partition) = some pp) :
    onProducerAck ops tps (some pm) true =
      .ok ⟨updatePP tps.partitionProcessors (int32cast im.partition)
        (ops.onProducerAck pp pm)⟩ ∧
    lookupPP (updatePP tps.partitionProcessors (int32cast im.partition)
        (ops.onProducerAck pp pm)) (int32cast im.partition) =
      some (ops.onProducerAck pp pm) ∧
    ∀ q, q ≠ int32cast im.partition →
      lookupPP (updatePP tps.partitionProcessors (int32cast im.partition)
        (ops.onProducerAck pp pm)) q = lookupPP tps.partitionProcessors q := by
  refine ⟨?_, lookupPP_updatePP_self _ _ _ _ hl, fun q hq => lookupPP_updatePP_ne _ _ _ _ hq⟩
  simp [onProducerAck, hm, hl]

theorem onProducerAck_routes_by_backreference_witness :
    onProducerAck demoOps ⟨[(0, 1), (3, 5)]⟩ (some demoAck) true =
      .ok ⟨updatePP [(0, 1), (3, 5)] (int32cast demoIm.partition)
        (demoOps.onProducerAck 1 demoAck)⟩ ∧
    lookupPP (updatePP [(0, 1), (3, 5)] (int32cast demoIm.partition)
        (demoOps.onProducerAck 1 demoAck)) (int32cast demoIm.partition) =
      some (demoOps.onProducerAck 1 demoAck) ∧
    ∀ q, q ≠ int32cast demoIm.partition →
      lookupPP (updatePP [(0, 1), (3, 5)] (int32cast demoIm.partition)
        (demoOps.onProducerAck 1 demoAck)) q = lookupPP [(0, 1), (3, 5)] q :=
  onProducerAck_routes_by_backreference demoOps ⟨[(0, 1), (3, 5)]⟩ demoAck demoIm 1 rfl
    (by decide)

/-- C5: every error delivered on the producer error stream is fatal — the
error-drainer task hands each received error to `onProducerError`, which
aborts the process; the drainer only terminates with the process still
running when the error channel closes without ever delivering an error. -/
theorem producer_errors_fatal :
    (∀ e : ProducerError, onProducerError e = ProcessStatus.aborted) ∧
    (∀ (e : ProducerError) (rest : List ProducerError),
      producerErrorDrainLoop (e :: rest) = onProducerError e) ∧
    (∀ (e : ProducerError) (rest : List ProducerError),
      producerErrorDrainLoop (e :: rest) = ProcessStatus.aborted) ∧
    producerErrorDrainLoop [] = ProcessStatus.running :=
  ⟨fun _ => rfl, fun _ _ => rfl, fun _ _ => rfl, rfl⟩

/-- C7: `Shutdown` closes the shutdown channel and then waits on the wait
group; on receiving the shutdown signal the coordinator loop closes the
fan-in synchroniser channel, stops the commit ticker exactly when one
exists, calls `onShutdown` on every partition processor, closes the
producer, closes the client, and returns with the resulting state. -/
theorem Shutdown_coordinator_cleanup {σ : Type} (ops : PartitionProcessorOps σ)
    (auto : Bool) (tickerChan : TimeTickChan) (fuel : Nat) (tps : TPState σ)
    (rest : List Ev) :
    Shutdown = [ShutdownStep.closeShutdownChannel, ShutdownStep.awaitWaitGroup] ∧
    runLoop ops auto tickerChan (fuel + 1) tps (Ev.shutdownSignal :: rest) =
      (.ok ⟨tps.partitionProcessors.map (fun pr => (pr.1, ops.onShutdown pr.2))⟩,
        Action.syncChanClosed ::
          ((if auto then [Action.tickerStopped] else []) ++
            tps.partitionProcessors.map (fun pr => Action.ppShutdownCalled pr.1) ++
            [Action.producerClosed, Action.clientClosed])) := by
  refine ⟨rfl, ?_⟩
  simp [runLoop, onShutdown, (shutdownPPs_spec ops tps.partitionProcessors).1,
    (shutdownPPs_spec ops tps.partitionProcessors).2]

/-- C9: `processConsumerMessage` and `onProducerAck` index the partition
processor map without a presence check: a consumer message for an unassigned
partition, an ack metadata that is not an `IncomingMessage`, or an ack whose
incoming message's partition is unassigned, all panic; when the metadata and
partition are well formed the ack call succeeds. -/
theorem partitionProcessors_lookup_panics {σ : Type} (ops : PartitionProcessorOps σ)
    (m : ConsumerMessage) (tickerChan : TimeTickChan) (fuel : Nat) (tps : TPState σ)
    (sched : List Ev) (pm : ProducerMessage) (im : IncomingMessage) :
    (lookupPP tps.partitionProcessors m.partition = none →
      processConsumerMessage ops m tickerChan (fuel + 1) tps sched = (.panicked, [])) ∧
    (pm.metadata = .other → onProducerAck ops tps (some pm) true = .panicked) ∧
    (pm.metadata = .incoming im →
      lookupPP tps.partitionProcessors (int32cast im.partition) = none →
      onProducerAck ops tps (some pm) true = .panicked) ∧
    (pm.metadata = .incoming im →
      ∀ pp, lookupPP tps.partitionProcessors (int32cast im.partition) = some pp →
        onProducerAck ops tps (some pm) true =
          .ok ⟨updatePP tps.partitionProcessors (int32cast im.partition)
            (ops.onProducerAck pp pm)⟩) := by
  refine ⟨fun hl => ?_, fun hm => ?_, fun hm hl => ?_, fun hm pp hl => ?_⟩
  · simp [processConsumerMessage, hl]
  · simp [onProducerAck, hm]
  · simp [onProducerAck, hm, hl]
  · simp [onProducerAck, hm, hl]

theorem partitionProcessors_lookup_panics_witness :
    processConsumerMessage demoOps demoM [] 1 ⟨[(5, 0)]⟩ [] = (.panicked, []) ∧
    onProducerAck demoOps ⟨[(5, 0)]⟩ (some demoBadAck) true = .panicked ∧
    onProducerAck demoOps ⟨[(5, 0)]⟩ (some demoAck) true = .panicked := by
  have h₁ := partitionProcessors_lookup_panics demoOps demoM [] 0 ⟨[(5, 0)]⟩ [] demoBadAck demoIm
  have h₂ := partitionProcessors_lookup_panics demoOps demoM [] 0 ⟨[(5, 0)]⟩ [] demoAck demoIm
  exact ⟨h₁.1 (by decide), h₁.2.1 rfl, h₂.2.2.1 rfl (by decide)⟩

/-- C10: an `onProducerAck` call for a closed success channel (`more = false`)
returns immediately: it never reads the message and the topic processor
state, hence every partition processor, is left unchanged. -/
theorem onProducerAck_closed_channel_noop {σ : Type} (ops : PartitionProcessorOps σ)
    (tps : TPState σ) (producerMessage : Option ProducerMessage) :
    onProducerAck ops tps producerMessage false = .ok tps ∧
    serviceAck ops tps none = .ok tps :=
  ⟨rfl, rfl⟩

/-- C2: on every successful `processConsumerMessage` run, `pp.process` is
called only after `pp.isReadyForMessage` holds: the trace starts with the
backpressure wait (`ReadyWait`: each iteration finds the predicate false,
services exactly one producer success via the ack router, and re-tests),
followed by the `procCalled` event at a state whose partition processor is
ready. -/
theorem processConsumerMessage_waits_until_ready {σ : Type}
    (ops : PartitionProcessorOps σ) (m : ConsumerMessage) (tickerChan : TimeTickChan)
    (fuel : Nat) (sched : List Ev) (tps tpsF : TPState σ) (schedF : List Ev)
    (tr : List Action)
    (h : processConsumerMessage ops m tickerChan fuel tps sched = (.ok (tpsF, schedF), tr)) :
    ∃ (trW rest' : List Action) (tpsW : TPState σ) (pp : σ),
      ReadyWait ops m tps trW tpsW ∧
      (∀ a ∈ trW, ∃ o, a = Action.ackRouted o) ∧
      lookupPP tpsW.partitionProcessors m.partition = some pp ∧
      ops.isReadyForMessage pp m = true ∧
      tr = trW ++ Action.procCalled m.partition m.offset :: rest' := by
  obtain ⟨trW, tpsW, pp, trS, tps₂, pp₂, trC, hrw, hl, hready, _, _, htr, _, _, _⟩ :=
    processConsumerMessage_ok ops m tickerChan fuel sched tps tpsF schedF tr h
  refine ⟨trW, trS ++ Action.completedCalled :: trC, tpsW, pp, hrw, ReadyWait_mem hrw,
    hl, hready, ?_⟩
  rw [htr]
  simp

theorem processConsumerMessage_waits_until_ready_witness :
    ∃ (trW rest' : List Action) (tpsW : TPState Nat) (pp : Nat),
      ReadyWait demoOps demoM ⟨[(0, 1)]⟩ trW tpsW ∧
      (∀ a ∈ trW, ∃ o, a = Action.ackRouted o) ∧
      lookupPP tpsW.partitionProcessors demoM.partition = some pp ∧
      demoOps.isReadyForMessage pp demoM = true ∧
      [Action.ackRouted (some demoAck), Action.procCalled 0 7, Action.submitted demoAck,
        Action.completedCalled, Action.ackRouted (some demoAck), Action.hookCalled,
        Action.commitCalled 0] =
        trW ++ Action.procCalled demoM.partition demoM.offset :: rest' :=
  processConsumerMessage_waits_until_ready demoOps demoM [] 3 demoSched ⟨[(0, 1)]⟩
    ⟨[(0, 0)]⟩ []
    [Action.ackRouted (some demoAck), Action.procCalled 0 7, Action.submitted demoAck,
      Action.completedCalled, Action.ackRouted (some demoAck), Action.hookCalled,
      Action.commitCalled 0]
    (by decide)

/-- C3: on every successful run the messages returned by `pp.process` are all
submitted to the producer input stream, in exactly the order returned
(`SubmitPhase`: an ack event leaves the pending list, in particular its head,
unchanged), and the submitted messages of the whole trace are exactly that
list — none dropped, none reordered, none submitted elsewhere. -/
theorem processConsumerMessage_submits_in_order {σ : Type}
    (ops : PartitionProcessorOps σ) (m : ConsumerMessage) (tickerChan : TimeTickChan)
    (fuel : Nat) (sched : List Ev) (tps tpsF : TPState σ) (schedF : List Ev)
    (tr : List Action)
    (h : processConsumerMessage ops m tickerChan fuel tps sched = (.ok (tpsF, schedF), tr)) :
    ∃ (trW trS trC : List Action) (tpsW tps₂ : TPState σ) (pp : σ),
      ReadyWait ops m tps trW tpsW ∧
      lookupPP tpsW.partitionProcessors m.partition = some pp ∧
      SubmitPhase ops (ops.process pp m).1
        ⟨updatePP tpsW.partitionProcessors m.partition (ops.process pp m).2.2⟩ trS tps₂ ∧
      tr = trW ++ Action.procCalled m.partition m.offset :: trS ++
        Action.completedCalled :: trC ∧
      submittedOf trS = (ops.process pp m).1 ∧
      submittedOf tr = (ops.process pp m).1 := by
  obtain ⟨trW, tpsW, pp, trS, tps₂, pp₂, trC, hrw, hl, hready, hphS, hl2, htr, hcT, hcF, _⟩ :=
    processConsumerMessage_ok ops m tickerChan fuel sched tps tpsF schedF tr h
  have hS : submittedOf trS = (ops.process pp m).1 := SubmitPhase_submittedOf hphS
  have hW : submittedOf trW = [] := by
    apply submittedOf_eq_nil
    intro a ha pm heq
    rcases ReadyWait_mem hrw a ha with ⟨o, ho⟩
    rw [heq] at ho
    cases ho
  have hC : submittedOf trC = [] := by
    cases hmc : (ops.process pp m).2.1 with
    | true =>
      obtain ⟨acks, tpsC, ppC, htrC, hacks, _, _, _⟩ := CommitPhase_shape (hcT hmc)
      apply submittedOf_eq_nil
      intro a ha pm heq
      rw [htrC] at ha
      rcases List.mem_append.mp ha with hA | hTail
      · rcases hacks a hA with ⟨o, ho⟩
        rw [heq] at ho
        cases ho
      rcases List.mem_cons.mp hTail with hh | hTail₂
      · rw [heq] at hh; cases hh
      rcases List.mem_cons.mp hTail₂ with hc | hn
      · rw [heq] at hc; cases hc
      · cases hn
    | false => rw [(hcF hmc).1]; rfl
  refine ⟨trW, trS, trC, tpsW, tps₂, pp, hrw, hl, hphS, htr, hS, ?_⟩
  rw [htr]
  rw [submittedOf_append, submittedOf_append]
  have hpc : submittedOf (Action.procCalled m.partition m.offset :: trS) = submittedOf trS := by
    simp [submittedOf]
  have hcc : submittedOf (Action.completedCalled :: trC) = submittedOf trC := by
    simp [submittedOf]
  rw [hpc, hcc, hW, hS, hC]
  simp

theorem processConsumerMessage_submits_in_order_witness :
    ∃ (trW trS trC : List Action) (tpsW tps₂ : TPState Nat) (pp : Nat),
      ReadyWait demoOps demoM ⟨[(0, 1)]⟩ trW tpsW ∧
      lookupPP tpsW.partitionProcessors demoM.partition = some pp ∧
      SubmitPhase demoOps (demoOps.process pp demoM).1
        ⟨updatePP tpsW.partitionProcessors demoM.partition
          (demoOps.process pp demoM).2.2⟩ trS tps₂ ∧
      [Action.ackRouted (some demoAck), Action.procCalled 0 7, Action.submitted demoAck,
        Action.completedCalled, Action.ackRouted (some demoAck), Action.hookCalled,
        Action.commitCalled 0] =
        trW ++ Action.procCalled demoM.partition demoM.offset :: trS ++
          Action.completedCalled :: trC ∧
      submittedOf trS = (demoOps.process pp demoM).1 ∧
      submittedOf
        [Action.ackRouted (some demoAck), Action.procCalled 0 7, Action.submitted demoAck,
          Action.completedCalled, Action.ackRouted (some demoAck), Action.hookCalled,
          Action.commitCalled 0] = (demoOps.process pp demoM).1 :=
  processConsumerMessage_submits_in_order demoOps demoM [] 3 demoSched ⟨[(0, 1)]⟩
    ⟨[(0, 0)]⟩ []
    [Action.ackRouted (some demoAck), Action.procCalled 0 7, Action.submitted demoAck,
      Action.completedCalled, Action.ackRouted (some demoAck), Action.hookCalled,
      Action.commitCalled 0]
    (by decide)

theorem pcm_ticker_irrelevant {σ : Type} (ops : PartitionProcessorOps σ)
    (m : ConsumerMessage) (t₁ t₂ : TimeTickChan) :
    ∀ (fuel : Nat) (tps : TPState σ) (sched : List Ev),
      processConsumerMessage ops m t₁ fuel tps sched
        = processConsumerMessage ops m t₂ fuel tps sched := by
  intro fuel
  induction fuel with
  | zero => intro tps sched; rfl
  | succ fuel ih =>
    intro tps sched
    cases hl : lookupPP tps.partitionProcessors m.partition with
    | none => simp [processConsumerMessage, hl]
    | some pp =>
      cases hready : ops.isReadyForMessage pp m with
      | true => simp [processConsumerMessage, hl, hready]
      | false =>
        cases sched with
        | nil => simp [processConsumerMessage, hl, hready]
        | cons ev rest =>
          cases ev with
          | consumer m₂ => simp [processConsumerMessage, hl, hready]
          | tick => simp [processConsumerMessage, hl, hready]
          | shutdownSignal => simp [processConsumerMessage, hl, hready]
          | inputReady => simp [processConsumerMessage, hl, hready]
          | success o =>
            cases hsa : serviceAck ops tps o with
            | ok tps₁ => simp [processConsumerMessage, hl, hready, hsa, ih]
            | panicked => simp [processConsumerMessage, hl, hready, hsa]
            | blocked => simp [processConsumerMessage, hl, hready, hsa]

/-- C8: a commit-timer tick is acted upon only between coordinator-loop
iterations: `processConsumerMessage` produces the same result for any value
of the ticker channel it is handed, every schedule event it consumes on a
successful run is a producer success (or producer-input readiness) — never a
tick — its trace never contains the tick-handling actions, while `runLoop`
itself does service a tick arriving between iterations. -/
theorem processConsumerMessage_ignores_ticker {σ : Type}
    (ops : PartitionProcessorOps σ) (m : ConsumerMessage) (t₁ t₂ : TimeTickChan)
    (fuel : Nat) (tps tpsF : TPState σ) (sched schedF : List Ev) (tr : List Action) :
    processConsumerMessage ops m t₁ fuel tps sched
      = processConsumerMessage ops m t₂ fuel tps sched ∧
    (processConsumerMessage ops m t₁ fuel tps sched = (.ok (tpsF, schedF), tr) →
      (∃ consumed, sched = consumed ++ schedF ∧
        ∀ e ∈ consumed, (∃ o, e = Ev.success o) ∨ e = Ev.inputReady) ∧
      Action.tickHandled ∉ tr ∧ (∀ p, Action.ppTicked p ∉ tr)) ∧
    (runLoop ops true t₁ (fuel + 1) tps (Ev.tick :: sched)).2 =
      Action.tickHandled :: (onMarkOffsetsTick ops tps).2 ++
        (runLoop ops true t₁ fuel (onMarkOffsetsTick ops tps).1 sched).2 := by
  refine ⟨pcm_ticker_irrelevant ops m t₁ t₂ fuel tps sched, fun h => ?_, by simp [runLoop]⟩
  obtain ⟨_, _, _, _, _, _, _, _, _, _, _, _, _, _, _, hcons⟩ :=
    processConsumerMessage_ok ops m t₁ fuel sched tps tpsF schedF tr h
  refine ⟨hcons, fun hmem => ?_, fun p hmem => ?_⟩
  · rcases pcm_trace_actions ops m t₁ fuel sched tps tpsF schedF tr h _ hmem with
      ⟨o, ho⟩ | ⟨p, off, ho⟩ | ⟨pm, ho⟩ | ho | ho | ⟨p, ho⟩ <;> exact Action.noConfusion ho
  · rcases pcm_trace_actions ops m t₁ fuel sched tps tpsF schedF tr h _ hmem with
      ⟨o, ho⟩ | ⟨p₂, off, ho⟩ | ⟨pm, ho⟩ | ho | ho | ⟨p₂, ho⟩ <;> exact Action.noConfusion ho

theorem processConsumerMessage_ignores_ticker_witness :
    processConsumerMessage demoOps demoM [] 3 ⟨[(0, 1)]⟩ demoSched
      = processConsumerMessage demoOps demoM [4, 9] 3 ⟨[(0, 1)]⟩ demoSched ∧
    ((∃ consumed, demoSched = consumed ++ ([] : List Ev) ∧
      ∀ e ∈ consumed, (∃ o, e = Ev.success o) ∨ e = Ev.inputReady) ∧
    Action.tickHandled ∉
      [Action.ackRouted (some demoAck), Action.procCalled 0 7, Action.submitted demoAck,
        Action.completedCalled, Action.ackRouted (some demoAck), Action.hookCalled,
        Action.commitCalled 0] ∧
    ∀ p, Action.ppTicked p ∉
      [Action.ackRouted (some demoAck), Action.procCalled 0 7, Action.submitted demoAck,
        Action.completedCalled, Action.ackRouted (some demoAck), Action.hookCalled,
        Action.commitCalled 0]) := by
  have h := processConsumerMessage_ignores_ticker demoOps demoM [] [4, 9] 3 ⟨[(0, 1)]⟩
    ⟨[(0, 0)]⟩ demoSched []
    [Action.ackRouted (some demoAck), Action.procCalled 0 7, Action.submitted demoAck,
      Action.completedCalled, Action.ackRouted (some demoAck), Action.hookCalled,
      Action.commitCalled 0]
  exact ⟨h.1, h.2.1 (by decide)⟩

/-- C1: on every successful run whose processing of `m` sets `mustCommit`,
`pp.commit` is called only at a state whose partition processor satisfies
`isReadyToCommit` (the `CommitPhase` relation: each earlier wait iteration
finds it false and services exactly one producer success), the wait services
only producer success acks, the user's hook is invoked immediately before the
commit, and no commit or hook action occurs anywhere earlier in the trace;
when `mustCommit` is not set, no commit occurs at all. -/
theorem processConsumerMessage_commit_gated {σ : Type}
    (ops : PartitionProcessorOps σ) (m : ConsumerMessage) (tickerChan : TimeTickChan)
    (fuel : Nat) (sched : List Ev) (tps tpsF : TPState σ) (schedF : List Ev)
    (tr : List Action)
    (h : processConsumerMessage ops m tickerChan fuel tps sched = (.ok (tpsF, schedF), tr)) :
    ∃ (pre trC : List Action) (tpsW : TPState σ) (pp : σ),
      lookupPP tpsW.partitionProcessors m.partition = some pp ∧
      ops.isReadyForMessage pp m = true ∧
      tr = pre ++ trC ∧
      (∀ a ∈ pre, (∀ q, a ≠ Action.commitCalled q) ∧ a ≠ Action.hookCalled) ∧
      ((ops.process pp m).2.1 = true →
        (∃ tps₃, CommitPhase ops m.partition tps₃ trC tpsF) ∧
        ∃ (acks : List Action) (tpsC : TPState σ) (ppC : σ),
          trC = acks ++ [Action.hookCalled, Action.commitCalled m.partition] ∧
          (∀ a ∈ acks, ∃ o, a = Action.ackRouted o) ∧
          lookupPP tpsC.partitionProcessors m.partition = some ppC ∧
          ops.isReadyToCommit ppC = true ∧
          tpsF = ⟨updatePP tpsC.partitionProcessors m.partition (ops.commit ppC)⟩) ∧
      ((ops.process pp m).2.1 = false →
        trC = [] ∧ ∀ q, Action.commitCalled q ∉ tr) := by
  obtain ⟨trW, tpsW, pp, trS, tps₂, pp₂, trC, hrw, hl, hready, hphS, hl2, htr, hcT, hcF, _⟩ :=
    processConsumerMessage_ok ops m tickerChan fuel sched tps tpsF schedF tr h
  have hpre : ∀ a ∈ (trW ++ Action.procCalled m.partition m.offset :: trS) ++
      [Action.completedCalled],
      (∀ q, a ≠ Action.commitCalled q) ∧ a ≠ Action.hookCalled := by
    intro a ha
    rcases List.mem_append.mp ha with hP | hcc
    · rcases List.mem_append.mp hP with hW | hMid
      · rcases ReadyWait_mem hrw a hW with ⟨o, ho⟩
        subst ho
        exact ⟨fun q hq => Action.noConfusion hq, fun hq => Action.noConfusion hq⟩
      rcases List.mem_cons.mp hMid with hpc | hS
      · subst hpc
        exact ⟨fun q hq => Action.noConfusion hq, fun hq => Action.noConfusion hq⟩
      rcases SubmitPhase_mem hphS a hS with ⟨o, ho⟩ | ⟨pm, hpm⟩
      · subst ho
        exact ⟨fun q hq => Action.noConfusion hq, fun hq => Action.noConfusion hq⟩
      · subst hpm
        exact ⟨fun q hq => Action.noConfusion hq, fun hq => Action.noConfusion hq⟩
    · rcases List.mem_cons.mp hcc with h1 | h2
      · subst h1
        exact ⟨fun q hq => Action.noConfusion hq, fun hq => Action.noConfusion hq⟩
      · cases h2
  refine ⟨(trW ++ Action.procCalled m.partition m.offset :: trS) ++
    [Action.completedCalled], trC, tpsW, pp, hl, hready, ?_, hpre,
    fun hmc => ?_, fun hmc => ?_⟩
  · rw [htr]
    simp
  · have hph := hcT hmc
    obtain ⟨acks, tpsC, ppC, htrC, hacks, hlC, hrC, hfin⟩ := CommitPhase_shape hph
    exact ⟨⟨_, hph⟩, acks, tpsC, ppC, htrC, hacks, hlC, hrC, hfin⟩
  · obtain ⟨hnil, _⟩ := hcF hmc
    refine ⟨hnil, fun q hq => ?_⟩
    rw [htr, hnil] at hq
    exact (hpre _ hq).1 q rfl

theorem processConsumerMessage_commit_gated_witness :
    ∃ (pre trC : List Action) (tpsW : TPState Nat) (pp : Nat),
      lookupPP tpsW.partitionProcessors demoM.partition = some pp ∧
      demoOps.isReadyForMessage pp demoM = true ∧
      [Action.ackRouted (some demoAck), Action.procCalled 0 7, Action.submitted demoAck,
        Action.completedCalled, Action.ackRouted (some demoAck), Action.hookCalled,
        Action.commitCalled 0] = pre ++ trC ∧
      (∀ a ∈ pre, (∀ q, a ≠ Action.commitCalled q) ∧ a ≠ Action.hookCalled) ∧
      ((demoOps.process pp demoM).2.1 = true →
        (∃ tps₃, CommitPhase demoOps demoM.partition tps₃ trC ⟨[(0, 0)]⟩) ∧
        ∃ (acks : List Action) (tpsC : TPState Nat) (ppC : Nat),
          trC = acks ++ [Action.hookCalled, Action.commitCalled demoM.partition] ∧
          (∀ a ∈ acks, ∃ o, a = Action.ackRouted o) ∧
          lookupPP tpsC.partitionProcessors demoM.partition = some ppC ∧
          demoOps.isReadyToCommit ppC = true ∧
          (⟨[(0, 0)]⟩ : TPState Nat) =
            ⟨updatePP tpsC.partitionProcessors demoM.partition (demoOps.commit ppC)⟩) ∧
      ((demoOps.process pp demoM).2.1 = false →
        trC = [] ∧ ∀ q, Action.commitCalled q ∉
          [Action.ackRouted (some demoAck), Action.procCalled 0 7,
            Action.submitted demoAck, Action.completedCalled,
            Action.ackRouted (some demoAck), Action.hookCalled,
            Action.commitCalled 0]) :=
  processConsumerMessage_commit_gated demoOps demoM [] 3 demoSched ⟨[(0, 1)]⟩
    ⟨[(0, 0)]⟩ []
    [Action.ackRouted (some demoAck), Action.procCalled 0 7, Action.submitted demoAck,
      Action.completedCalled, Action.ackRouted (some demoAck), Action.hookCalled,
      Action.commitCalled 0]
    (by decide)

theorem mem_partitionsForContainer {config : TopicProcessorConfig} {cid p : Int}
    (h : p ∈ config.partitionsForContainer cid) :
    (p, cid) ∈ config.PartitionToContainerID := by
  unfold TopicProcessorConfig.partitionsForContainer at h
  rcases List.mem_map.mp h with ⟨pc, hmem, heq⟩
  rcases List.mem_filter.mp hmem with ⟨hmem', hfilt⟩
  have h2 : pc.2 = cid := by simpa using hfilt
  have h3 : pc = (p, cid) := by
    obtain ⟨a, b⟩ := pc
    simp at heq h2
    simp [heq, h2]
  rw [← h3]
  exact hmem'

/-- C6: `NewTopicProcessor` aborts construction with a fatal error when the
container id is outside `[0, ContainerCount)` or when an input topic has no
serde; the partition-to-container mapping check can never fire because an
assigned partition is by definition one the mapping sends to this container;
and for valid inputs (with the broker-dependent steps succeeding) it returns
a `TopicProcessor` with exactly one partition processor per assigned
partition, keyed by the `int32` cast of the partition. -/
theorem NewTopicProcessor_validation {μ σ : Type} (config : TopicProcessorConfig)
    (makeProcessor : Unit → μ) (newPartitionProcessor : μ → Int → σ) (env : SetupEnv)
    (containerID : Int) :
    ((containerID < 0 ∨ containerID ≥ config.ContainerCount) →
      NewTopicProcessor config makeProcessor newPartitionProcessor env containerID =
        .error .containerIDOutOfRange) ∧
    (0 ≤ containerID → containerID < config.ContainerCount →
      (∃ t ∈ config.InputTopics, assocLookup config.TopicSerdes t = none) →
      ∃ t, NewTopicProcessor config makeProcessor newPartitionProcessor env containerID =
        .error (.missingSerde t) ∧ t ∈ config.InputTopics ∧
        assocLookup config.TopicSerdes t = none) ∧
    (∀ p ∈ config.partitionsForContainer containerID,
      (assocLookup config.PartitionToContainerID p).isSome = true) ∧
    (0 ≤ containerID → containerID < config.ContainerCount →
      (∀ t ∈ config.InputTopics, (assocLookup config.TopicSerdes t).isSome = true) →
      env.clientOk = true → env.offsetManagerOk = true → env.producerOk = true →
      ∃ tp, NewTopicProcessor config makeProcessor newPartitionProcessor env containerID =
        .ok tp ∧
        tp.containerID = containerID ∧
        tp.inputTopics = config.InputTopics ∧
        tp.partitions = config.partitionsForContainer containerID ∧
        tp.partitionProcessors.length =
          (config.partitionsForContainer containerID).length ∧
        tp.partitionProcessors.map Prod.fst =
          (config.partitionsForContainer containerID).map int32cast) := by
  have hmapping : ∀ p ∈ config.partitionsForContainer containerID,
      (assocLookup config.PartitionToContainerID p).isSome = true := by
    intro p hp
    exact assocLookup_isSome_of_mem _ _ _ (mem_partitionsForContainer hp)
  refine ⟨fun hc => ?_, fun h0 hlt hmiss => ?_, hmapping, fun h0 hlt hser hcl hom hpr => ?_⟩
  · have hcond : (decide (containerID < 0) ||
        decide (containerID ≥ config.ContainerCount)) = true := by
      rcases hc with hx | hx <;> simp [hx]
    simp [NewTopicProcessor, hcond]
  · have hcond : (decide (containerID < 0) ||
        decide (containerID ≥ config.ContainerCount)) = false := by
      simp [not_lt.mpr h0, not_le.mpr hlt]
    have hfind : (config.InputTopics.find?
        (fun t => (assocLookup config.TopicSerdes t).isNone)).isSome = true := by
      apply List.find?_isSome.mpr
      obtain ⟨t, ht, hnone⟩ := hmiss
      exact ⟨t, ht, by simp [hnone]⟩
    cases hf : config.InputTopics.find?
        (fun t => (assocLookup config.TopicSerdes t).isNone) with
    | none => rw [hf] at hfind; cases hfind
    | some t =>
      have hp := List.find?_some hf
      have hmem := List.mem_of_find?_eq_some hf
      refine ⟨t, ?_, hmem, by simpa using hp⟩
      simp [NewTopicProcessor, hcond, hf]
  · have hcond : (decide (containerID < 0) ||
        decide (containerID ≥ config.ContainerCount)) = false := by
      simp [not_lt.mpr h0, not_le.mpr hlt]
    have hfind : config.InputTopics.find?
        (fun t => (assocLookup config.TopicSerdes t).isNone) = none := by
      apply List.find?_eq_none.mpr
      intro t ht
      have hne := Option.isSome_iff_ne_none.mp (hser t ht)
      simpa using hne
    have hfind₂ : (config.partitionsForContainer containerID).find?
        (fun p => (assocLookup config.PartitionToContainerID p).isNone) = none := by
      apply List.find?_eq_none.mpr
      intro p hp
      have hne := Option.isSome_iff_ne_none.mp (hmapping p hp)
      simpa using hne
    refine ⟨⟨containerID, config.InputTopics, config.partitionsForContainer containerID,
      (config.partitionsForContainer containerID).map
        (fun p => (int32cast p, newPartitionProcessor (makeProcessor ()) p))⟩,
      ?_, rfl, rfl, rfl, by simp, by simp [List.map_map, Function.comp]⟩
    simp [NewTopicProcessor, hcond, hfind, hfind₂, hcl, hom, hpr]

theorem NewTopicProcessor_validation_witness :
    NewTopicProcessor (σ := Nat) demoConfig (fun _ => 0) (fun _ p => p.toNat) demoEnv 5 =
      .error .containerIDOutOfRange ∧
    ∃ tp, NewTopicProcessor (σ := Nat) demoConfig (fun _ => 0) (fun _ p => p.toNat)
        demoEnv 0 = .ok tp ∧
      tp.containerID = 0 ∧
      tp.inputTopics = demoConfig.InputTopics ∧
      tp.partitions = demoConfig.partitionsForContainer 0 ∧
      tp.partitionProcessors.length = (demoConfig.partitionsForContainer 0).length ∧
      tp.partitionProcessors.map Prod.fst =
        (demoConfig.partitionsForContainer 0).map int32cast := by
  constructor
  · exact (NewTopicProcessor_validation demoConfig (fun _ => 0) (fun _ p => p.toNat)
      demoEnv 5).1 (Or.inr (by decide))
  · exact (NewTopicProcessor_validation demoConfig (fun _ => 0) (fun _ p => p.toNat)
      demoEnv 0).2.2.2 (by decide) (by decide) (by decide) rfl rfl rfl

end Kasper
